import Mathlib

/-!
# Gargoyle streams registry and HDB cinematic queue

A shallow embedding of `engines/gargoyle/streams.h` (the inline members of
`Stream`, `WindowStream` and `Streams`) and of `engines/hdb/ai.cpp`
(`AI::processCines` and the cine enqueue operations), followed by the
properties established about them.

Conventions of the embedding:

* a C++ pointer is an `Option Addr`: `none` is `nullptr`, `some a` is the
  address `a`; the objects a pointer can reach live in a `Heap`;
* `uint32` values are natural numbers reduced modulo `2 ^ 32` where they are
  stored;
* a method that can hit `assert` or dereference a bad pointer returns an
  `Outcome`, which records how the call ended and the state at that point.
-/

set_option autoImplicit false

namespace Gargoyle

/-- An address of an object. -/
abbrev Addr := Nat

/-- Fields of `class Stream` (streams.h, lines 45-52). -/
structure Stream where
  _streams : Option Addr
  _prev : Option Addr
  _next : Option Addr
  _rock : Nat
  _unicode : Bool
  _readCount : Nat
  _writeCount : Nat
  _readable : Bool
  _writable : Bool
deriving DecidableEq, Repr

/-- Modelled from the spec: the body of `Stream::Stream` is not in the header
(only its declaration, line 57, is). Each of `streams`, `readable`,
`writable`, `rock`, `unicode` is stored in the field of the same name, in the
declared parameter order; the rock is a `uint32`; the counters start at zero
and the new stream is not linked yet. -/
def Stream.ctor (streams : Option Addr) (readable writable : Bool) (rock : Nat)
    (unicode : Bool) : Stream :=
  { _streams := streams
    _prev := none
    _next := none
    _rock := rock % 2 ^ 32
    _unicode := unicode
    _readCount := 0
    _writeCount := 0
    _readable := readable
    _writable := writable }

/-- The member `Stream::getRock` (line 72). -/
def Stream.getRock (self : Stream) : Nat := self._rock

/-- The class `WindowStream : public Stream` with its one extra field (line 101). -/
structure WindowStream extends Stream where
  _window : Option Addr
deriving DecidableEq, Repr

/-- The constructor `WindowStream::WindowStream` (lines 106-107):
`Stream(streams, true, false, rock, unicode), _window(window)`.
In the source `rock` defaults to `0` and `unicode` to `true`. -/
def WindowStream.ctor (streams : Option Addr) (window : Option Addr) (rock : Nat)
    (unicode : Bool) : WindowStream :=
  { toStream := Stream.ctor streams true false rock unicode
    _window := window }

/-- The stream objects that exist, by address. -/
abbrev Heap := List (Addr × Stream)

/-- Dereference a `Stream *`: `none` for `nullptr` or an address with no stream. -/
def deref (heap : Heap) : Option Addr → Option Stream
  | none => none
  | some a => heap.lookup a

/-- Fields of `class Streams` (lines 158-160). -/
structure Streams where
  _engine : Option Addr
  _streamList : Option Addr
  _currentStream : Option Addr
deriving DecidableEq, Repr

/-- A registry together with the stream objects in memory. -/
structure World where
  heap : Heap
  reg : Streams
deriving DecidableEq, Repr

/-- How a call ended, with the state at that point: it returned, it stopped at
a failed `assert`, or it dereferenced a pointer to no object. -/
inductive Outcome where
  | done (w : World)
  | assertFailed (w : World)
  | badPointer (w : World)
deriving DecidableEq, Repr

/-- The state carried by an outcome. -/
def Outcome.state : Outcome → World
  | .done w => w
  | .assertFailed w => w
  | .badPointer w => w

/-- The member `Streams::setCurrent` (lines 207-210):
`assert(stream->_writable); _currentStream = stream;`. -/
def Streams.setCurrent (w : World) (stream : Option Addr) : Outcome :=
  match deref w.heap stream with
  | none => .badPointer w
  | some s =>
    if s._writable then
      .done { w with reg := { w.reg with _currentStream := stream } }
    else
      .assertFailed w

/-- The member `Streams::getCurrent` (line 215). -/
def Streams.getCurrent (w : World) : Option Addr := w.reg._currentStream

/-- The calls whose bodies are in the header. `deleteStream` is left out: its
body is `delete stream`, which runs the destructor, and that is not in the
header. -/
inductive Call where
  | setCurrent (stream : Option Addr)
  | getCurrent
  | getRock (stream : Option Addr)
deriving DecidableEq, Repr

/-- Whether a call is a `setCurrent`. -/
def Call.isSetCurrent : Call → Bool
  | .setCurrent _ => true
  | _ => false

/-- Run one call. `getCurrent` and `getRock` are `const` members: they return
a value and write nothing. -/
def Call.exec (w : World) : Call → Outcome
  | .setCurrent p => Streams.setCurrent w p
  | .getCurrent => .done w
  | .getRock p =>
    match deref w.heap p with
    | none => .badPointer w
    | some _ => .done w

/-- Run a sequence of calls, stopping at the first one that does not return. -/
def runCalls (w : World) : List Call → Outcome
  | [] => .done w
  | c :: cs =>
    match c.exec w with
    | .done w1 => runCalls w1 cs
    | o => o

/-- The addresses met when walking `_next` from `head`, at most `fuel` steps. -/
def walk (heap : Heap) : Nat → Option Addr → List Addr
  | 0, _ => []
  | _, none => []
  | fuel + 1, some a =>
    match heap.lookup a with
    | none => [a]
    | some s => a :: walk heap fuel s._next

/-- The members of the registry's stream list: what a walk from `_streamList`
reaches. A walk of `heap.length + 1` steps sees every reachable node. -/
def Streams.members (w : World) : List Addr :=
  walk w.heap (w.heap.length + 1) w.reg._streamList

/-- The registry invariant of the data model: the current stream, if not null,
is writable and is a member of the stream list. -/
def Streams.currentOk (w : World) : Prop :=
  ∀ a, w.reg._currentStream = some a →
    (∃ s, deref w.heap (some a) = some s ∧ s._writable = true) ∧ a ∈ Streams.members w

/-- A world with one writable stream at address `1` that is not linked into
the (empty) stream list of the registry. -/
def strayWorld : World :=
  { heap := [(1, Stream.ctor none false true 0 true)]
    reg := { _engine := none, _streamList := none, _currentStream := none } }

/-- A world whose list holds one stream at address `1`, writable or not. -/
def oneStream (writable : Bool) : World :=
  { heap := [(1, Stream.ctor none (!writable) writable 5 true)]
    reg := { _engine := none, _streamList := some 1, _currentStream := none } }

/-- A world whose list holds one window stream at address `1`. -/
def windowWorld : World :=
  { heap := [(1, (WindowStream.ctor none (some 9) 5 true).toStream)]
    reg := { _engine := none, _streamList := some 1, _currentStream := none } }

end Gargoyle

namespace HDB

/-- The command types `ai.cpp` names. The enumeration itself is declared in a
header that is not part of the sources; `C_OTHER` stands for any further
enumerator, which the `switch` of `processCines` passes over (it has no
`default` label). -/
inductive CineType where
  | C_SETCAMERA
  | C_RESETCAMERA
  | C_MOVECAMERA
  | C_WAIT
  | C_WAITUNTILDONE
  | C_OTHER (tag : Nat)
deriving DecidableEq, Repr

/-- The fields of `CineCommand` that `ai.cpp` reads or writes. The coordinate
fields have the type `α`, the integer fields are `Int`. -/
structure CineCommand (α : Type) where
  cmdType : CineType
  x : α
  y : α
  xv : α
  yv : α
  start : Int
  delay : Int
  speed : Int
deriving DecidableEq, Repr

/-- What `ai.cpp` takes from the header that is not part of the sources: the
tile size constants, the arithmetic of the coordinate type, and the contents
of a `CineCommand` right after `new CineCommand`. -/
structure Env (α : Type) where
  kTileWidth : Int
  kTileHeight : Int
  -- conversion of an `int` to the coordinate type
  ofInt : Int → α
  add : α → α → α
  sub : α → α → α
  div : α → α → α
  -- the test `abs(v) <= 1`
  absLeOne : α → Bool
  -- the contents of a freshly allocated command
  fresh : CineCommand α

/-- The members of `class AI` that `ai.cpp` uses. `_cine` is an array of
pointers to commands, each allocated by its own `new`, so it is a list of
commands. -/
structure AI (α : Type) where
  _cine : List (CineCommand α)
  _cineActive : Bool
  _cineAbortable : Bool
  _cineAborted : Bool
  _cineAbortFunc : Option Nat
  _playerLock : Bool
  _cameraLock : Bool
  _cameraX : α
  _cameraY : α
deriving DecidableEq, Repr

/-- What the loop of `processCines` updates besides the commands: the camera
members and the local `complete`. -/
structure Scan (α : Type) where
  cameraX : α
  cameraY : α
  cameraLock : Bool
  complete : Bool
deriving DecidableEq, Repr

/-- One pass through the body of the `for` loop (lines 52-83) for the command
`c`: the command as the body leaves it, and the updated variables. The calls
of `warning` only log. -/
def cineBody {α : Type} (E : Env α) (c : CineCommand α) (v : Scan α) :
    CineCommand α × Scan α :=
  match c.cmdType with
  | .C_SETCAMERA =>
    (c, { cameraX := c.x, cameraY := c.y, cameraLock := true, complete := true })
  | .C_RESETCAMERA =>
    (c, { v with cameraLock := false, complete := true })
  | .C_MOVECAMERA =>
    let c1 : CineCommand α :=
      if c.start = 0 then
        { c with
          xv := E.div (E.sub c.x v.cameraX) (E.ofInt c.speed)
          yv := E.div (E.sub c.y v.cameraY) (E.ofInt c.speed)
          start := 1 }
      else c
    let cx := E.add v.cameraX c1.xv
    let cy := E.add v.cameraY c1.yv
    if E.absLeOne (E.sub cx c1.x) && E.absLeOne (E.sub cy c1.y) then
      (c1, { cameraX := c1.x, cameraY := c1.y, cameraLock := true, complete := true })
    else
      (c1, { cameraX := cx, cameraY := cy, cameraLock := true, complete := v.complete })
  | _ => (c, v)

/-- The `for` loop of `processCines` (line 51): the body runs on every command
from `begin()` to `end()`, in order; there is no `break` out of the loop. -/
def cineLoop {α : Type} (E : Env α) : List (CineCommand α) → Scan α →
    List (CineCommand α) × Scan α
  | [], v => ([], v)
  | c :: cs, v =>
    let r := cineBody E c v
    let rest := cineLoop E cs r.2
    (r.1 :: rest.1, rest.2)

/-- The member `AI::processCines` (lines 35-85). -/
def AI.processCines {α : Type} (E : Env α) (self : AI α) : AI α :=
  if !self._cineActive then self
  else
    let r := cineLoop E self._cine
      { cameraX := self._cameraX, cameraY := self._cameraY
        cameraLock := self._cameraLock, complete := false }
    { self with
      _cine := r.1
      _cameraX := r.2.cameraX
      _cameraY := r.2.cameraY
      _cameraLock := r.2.cameraLock }

/-- The member `AI::cineStart` (lines 87-94). -/
def AI.cineStart {α : Type} (self : AI α) (abortable : Bool) (abortFunc : Option Nat) : AI α :=
  { self with
    _cineAbortable := abortable
    _cineAborted := false
    _cineAbortFunc := abortFunc
    _cineActive := true
    _playerLock := false
    _cameraLock := false }

/-- The member `AI::cineSetCamera` (lines 96-102). -/
def AI.cineSetCamera {α : Type} (E : Env α) (self : AI α) (x y : Int) : AI α :=
  let cmd : CineCommand α :=
    { E.fresh with
      x := E.ofInt (x * E.kTileWidth)
      y := E.ofInt (y * E.kTileHeight)
      cmdType := .C_SETCAMERA }
  { self with _cine := self._cine ++ [cmd] }

/-- The member `AI::cineResetCamera` (lines 104-108). -/
def AI.cineResetCamera {α : Type} (E : Env α) (self : AI α) : AI α :=
  let cmd : CineCommand α := { E.fresh with cmdType := .C_RESETCAMERA }
  { self with _cine := self._cine ++ [cmd] }

/-- The member `AI::cineMoveCamera` (lines 110-117). The body never mentions
`speed`. -/
def AI.cineMoveCamera {α : Type} (E : Env α) (self : AI α) (x y : Int) (_speed : Int) : AI α :=
  let cmd : CineCommand α :=
    { E.fresh with
      start := 0
      x := E.ofInt (x * E.kTileWidth)
      y := E.ofInt (y * E.kTileHeight)
      cmdType := .C_MOVECAMERA }
  { self with _cine := self._cine ++ [cmd] }

/-- The member `AI::cineWait` (lines 119-125). -/
def AI.cineWait {α : Type} (E : Env α) (self : AI α) (seconds : Int) : AI α :=
  let cmd : CineCommand α :=
    { E.fresh with
      start := 0
      cmdType := .C_WAIT
      delay := seconds }
  { self with _cine := self._cine ++ [cmd] }

/-- The member `AI::cineWaitUntilDone` (lines 127-131). -/
def AI.cineWaitUntilDone {α : Type} (E : Env α) (self : AI α) : AI α :=
  let cmd : CineCommand α := { E.fresh with cmdType := .C_WAITUNTILDONE }
  { self with _cine := self._cine ++ [cmd] }

/-- Integer coordinates with truncating division, a concrete `Env` on which
the definitions can be evaluated. -/
def intEnv : Env Int :=
  { kTileWidth := 32
    kTileHeight := 32
    ofInt := fun n => n
    add := fun a b => a + b
    sub := fun a b => a - b
    div := fun a b => Int.tdiv a b
    absLeOne := fun v => decide (v.natAbs ≤ 1)
    fresh :=
      { cmdType := .C_OTHER 0, x := 0, y := 0, xv := 0, yv := 0
        start := 0, delay := 0, speed := 0 } }

/-- What `processCines` may do to a command `c`, giving `c1`: every field but
`xv`, `yv` and `start` is kept, and a command that is not a `C_MOVECAMERA` is
kept whole. -/
def CineCommand.keptBy {α : Type} (c c1 : CineCommand α) : Prop :=
  c1 = { c with xv := c1.xv, yv := c1.yv, start := c1.start } ∧
    (c.cmdType ≠ .C_MOVECAMERA → c1 = c)

/-- A state with an empty queue and the camera at the origin. -/
def idle (active : Bool) : AI Int :=
  { _cine := [], _cineActive := active, _cineAbortable := false, _cineAborted := false
    _cineAbortFunc := none, _playerLock := false, _cameraLock := false
    _cameraX := 0, _cameraY := 0 }

/-- A running cinematic with two queued `C_SETCAMERA` commands. -/
def twoShots : AI Int :=
  AI.cineSetCamera intEnv (AI.cineSetCamera intEnv (idle true) 1 2) 3 4

end HDB


/-! ## Properties of the streams registry -/

namespace Gargoyle

theorem setCurrent_heap (w : World) (p : Option Addr) :
    (Streams.setCurrent w p).state.heap = w.heap := by
  unfold Streams.setCurrent
  cases deref w.heap p with
  | none => rfl
  | some s => by_cases h : s._writable = true <;> simp [h, Outcome.state]

theorem exec_heap (w : World) (c : Call) : (c.exec w).state.heap = w.heap := by
  cases c with
  | setCurrent p => exact setCurrent_heap w p
  | getCurrent => rfl
  | getRock p =>
    simp only [Call.exec]
    cases deref w.heap p <;> rfl

theorem runCalls_heap (calls : List Call) :
    ∀ w : World, (runCalls w calls).state.heap = w.heap := by
  induction calls with
  | nil => intro w; rfl
  | cons c cs ih =>
    intro w
    have hc := exec_heap w c
    simp only [runCalls]
    cases h : c.exec w with
    | done w1 =>
      rw [h] at hc
      simpa [ih w1] using hc
    | assertFailed w1 => rw [h] at hc; simpa using hc
    | badPointer w1 => rw [h] at hc; simpa using hc

theorem exec_state_of_not_setCurrent (w : World) (c : Call) (h : c.isSetCurrent = false) :
    (c.exec w = .done w ∨ c.exec w = .badPointer w) := by
  cases c with
  | setCurrent p => simp [Call.isSetCurrent] at h
  | getCurrent => exact Or.inl rfl
  | getRock p =>
    simp only [Call.exec]
    cases deref w.heap p
    · exact Or.inr rfl
    · exact Or.inl rfl

theorem runCalls_state_of_no_setCurrent (calls : List Call) (w : World)
    (h : ∀ c ∈ calls, c.isSetCurrent = false) : (runCalls w calls).state = w := by
  induction calls with
  | nil => rfl
  | cons c cs ih =>
    have hc := exec_state_of_not_setCurrent w c (h c (List.mem_cons_self c cs))
    have hcs : ∀ d ∈ cs, d.isSetCurrent = false := fun d hd => h d (List.mem_cons_of_mem c hd)
    simp only [runCalls]
    rcases hc with hc | hc
    · rw [hc]; exact ih hcs
    · rw [hc]; rfl

/-- C1: the claim is that every window stream is built with readable = false
and writable = true. The constructor passes `true, false` to the base
constructor, so with the base constructor storing its arguments in the
declared order every window stream has readable = true and writable = false. -/
theorem windowStream_ctor_flags (streams window : Option Addr) (rock : Nat) (unicode : Bool) :
    (WindowStream.ctor streams window rock unicode)._readable = true ∧
      (WindowStream.ctor streams window rock unicode)._writable = false :=
  ⟨rfl, rfl⟩

/-- C2: for a writable stream `s` at `p`, `setCurrent(p)` returns, `getCurrent()`
then returns `p`, and it still returns `p` after any sequence of calls that
holds no `setCurrent`. -/
theorem setCurrent_getCurrent (w : World) (p : Option Addr) (s : Stream)
    (hs : deref w.heap p = some s) (hw : s._writable = true) :
    ∃ w1, Streams.setCurrent w p = .done w1 ∧ Streams.getCurrent w1 = p ∧
      ∀ calls : List Call, (∀ c ∈ calls, c.isSetCurrent = false) →
        Streams.getCurrent (runCalls w1 calls).state = p := by
  refine ⟨{ w with reg := { w.reg with _currentStream := p } }, ?_, rfl, ?_⟩
  · simp [Streams.setCurrent, hs, hw]
  · intro calls hcalls
    rw [runCalls_state_of_no_setCurrent calls _ hcalls]
    rfl

theorem setCurrent_getCurrent_witness :
    ∃ w1, Streams.setCurrent (oneStream true) (some 1) = .done w1 ∧
      Streams.getCurrent w1 = some 1 ∧
      ∀ calls : List Call, (∀ c ∈ calls, c.isSetCurrent = false) →
        Streams.getCurrent (runCalls w1 calls).state = some 1 :=
  setCurrent_getCurrent (oneStream true) (some 1) (Stream.ctor none false true 5 true)
    (by decide) rfl

/-- C3: for a stream `s` at `p` that is not writable, `setCurrent(p)` stops at
the assertion with the registry as it was, so the current stream is the one
from before the call; and `setCurrent(p)` fails to return exactly when `s` is
not writable. -/
theorem setCurrent_rejects (w : World) (p : Option Addr) (s : Stream)
    (hs : deref w.heap p = some s) :
    (s._writable = false →
        Streams.setCurrent w p = .assertFailed w ∧
          Streams.getCurrent (Streams.setCurrent w p).state = Streams.getCurrent w) ∧
      ((¬ ∃ w1, Streams.setCurrent w p = .done w1) ↔ s._writable = false) := by
  constructor
  · intro hw
    have h : Streams.setCurrent w p = .assertFailed w := by
      simp [Streams.setCurrent, hs, hw]
    exact ⟨h, by rw [h]; rfl⟩
  · constructor
    · intro hno
      cases hw : s._writable with
      | false => rfl
      | true =>
        exact absurd ⟨{ w with reg := { w.reg with _currentStream := p } },
          by simp [Streams.setCurrent, hs, hw]⟩ hno
    · intro hw
      rintro ⟨w1, h1⟩
      simp [Streams.setCurrent, hs, hw] at h1

theorem setCurrent_rejects_witness :
    (false = false →
        Streams.setCurrent (oneStream false) (some 1) = .assertFailed (oneStream false) ∧
          Streams.getCurrent (Streams.setCurrent (oneStream false) (some 1)).state =
            Streams.getCurrent (oneStream false)) ∧
      ((¬ ∃ w1, Streams.setCurrent (oneStream false) (some 1) = .done w1) ↔ false = false) :=
  setCurrent_rejects (oneStream false) (some 1) (Stream.ctor none true false 5 true) (by decide)

/-- C4, as stated, fails: in `strayWorld` the invariant holds (no current
stream), `setCurrent` on the writable stream at address `1` returns, and the
new current stream is not a member of the stream list. -/
theorem setCurrent_breaks_membership :
    ¬ ∀ (w w1 : World) (p : Option Addr),
        Streams.currentOk w → Streams.setCurrent w p = .done w1 → Streams.currentOk w1 := by
  intro h
  have hinv : Streams.currentOk strayWorld := by
    intro a ha
    simp [strayWorld] at ha
  have hrun : Streams.setCurrent strayWorld (some 1) =
      .done { strayWorld with reg := { strayWorld.reg with _currentStream := some 1 } } := by
    decide
  have hbad := (h _ _ _ hinv hrun 1 rfl).2
  revert hbad
  decide

/-- C4, amended: after a `setCurrent(p)` that returns from a state satisfying
the invariant, the current stream is `p` and it is writable; and when `p` is a
member of the stream list, the invariant holds again. -/
theorem setCurrent_preserves_currentOk (w w1 : World) (p : Option Addr)
    (_hinv : Streams.currentOk w) (hrun : Streams.setCurrent w p = .done w1) :
    (Streams.getCurrent w1 = p ∧ ∃ s, deref w1.heap p = some s ∧ s._writable = true) ∧
      ((∀ a, p = some a → a ∈ Streams.members w) → Streams.currentOk w1) := by
  unfold Streams.setCurrent at hrun
  cases hs : deref w.heap p with
  | none => simp [hs] at hrun
  | some s =>
    cases hw : s._writable with
    | false => simp [hs, hw] at hrun
    | true =>
      simp [hs, hw] at hrun
      subst hrun
      refine ⟨⟨rfl, s, hs, hw⟩, ?_⟩
      intro hmem a ha
      have hpa : p = some a := ha
      refine ⟨⟨s, ?_, hw⟩, hmem a hpa⟩
      rw [← hpa]
      exact hs

theorem setCurrent_preserves_currentOk_witness :
    (Streams.getCurrent
          { oneStream true with reg := { (oneStream true).reg with _currentStream := some 1 } } =
        some 1 ∧
        ∃ s, deref (oneStream true).heap (some 1) = some s ∧ s._writable = true) ∧
      ((∀ a, some 1 = some a → a ∈ Streams.members (oneStream true)) →
        Streams.currentOk
          { oneStream true with reg := { (oneStream true).reg with _currentStream := some 1 } }) :=
  setCurrent_preserves_currentOk (oneStream true) _ (some 1)
    (by intro a ha; simp [oneStream] at ha) (by decide)

/-- C5: a stream, and in particular a window stream, constructed with a 32-bit
rock `R` returns `R` from `getRock()`; and after any sequence of `setCurrent`,
`getCurrent` and `getRock` calls every stream has the rock it had before. -/
theorem rock_round_trip (R : Nat) (hR : R < 2 ^ 32) :
    (∀ (streams : Option Addr) (readable writable unicode : Bool),
        (Stream.ctor streams readable writable R unicode).getRock = R) ∧
      (∀ (streams window : Option Addr) (unicode : Bool),
        (WindowStream.ctor streams window R unicode).toStream.getRock = R) ∧
      (∀ (w : World) (calls : List Call) (p : Option Addr),
        (deref (runCalls w calls).state.heap p).map Stream.getRock =
          (deref w.heap p).map Stream.getRock) := by
  refine ⟨?_, ?_, ?_⟩
  · intro streams readable writable unicode
    simp only [Stream.getRock, Stream.ctor]
    exact Nat.mod_eq_of_lt hR
  · intro streams window unicode
    simp only [Stream.getRock, WindowStream.ctor, Stream.ctor]
    exact Nat.mod_eq_of_lt hR
  · intro w calls p
    rw [runCalls_heap calls w]

theorem rock_round_trip_witness :
    (∀ (streams : Option Addr) (readable writable unicode : Bool),
        (Stream.ctor streams readable writable 4294967295 unicode).getRock = 4294967295) ∧
      (∀ (streams window : Option Addr) (unicode : Bool),
        (WindowStream.ctor streams window 4294967295 unicode).toStream.getRock = 4294967295) ∧
      (∀ (w : World) (calls : List Call) (p : Option Addr),
        (deref (runCalls w calls).state.heap p).map Stream.getRock =
          (deref w.heap p).map Stream.getRock) :=
  rock_round_trip 4294967295 (by norm_num)

/-- C8: when the stream at `p` is a window stream built by the constructor,
`setCurrent(p)` stops at its writable assertion, and the current stream stays
the one from before the call. -/
theorem windowStream_setCurrent_fails (w : World) (p streams window : Option Addr)
    (rock : Nat) (unicode : Bool)
    (hs : deref w.heap p = some (WindowStream.ctor streams window rock unicode).toStream) :
    Streams.setCurrent w p = .assertFailed w ∧
      Streams.getCurrent (Streams.setCurrent w p).state = Streams.getCurrent w := by
  have h : Streams.setCurrent w p = .assertFailed w := by
    simp [Streams.setCurrent, hs, WindowStream.ctor, Stream.ctor]
  exact ⟨h, by rw [h]; rfl⟩

theorem windowStream_setCurrent_fails_witness :
    Streams.setCurrent windowWorld (some 1) = .assertFailed windowWorld ∧
      Streams.getCurrent (Streams.setCurrent windowWorld (some 1)).state =
        Streams.getCurrent windowWorld :=
  windowStream_setCurrent_fails windowWorld (some 1) none (some 9) 5 true (by decide)

end Gargoyle

/-! ## Properties of the cinematic queue -/

namespace HDB

theorem cineBody_keptBy {α : Type} (E : Env α) (c : CineCommand α) (v : Scan α) :
    CineCommand.keptBy c (cineBody E c v).1 := by
  obtain ⟨t, x, y, xv, yv, st, dl, sp⟩ := c
  cases t with
  | C_MOVECAMERA =>
    simp only [cineBody, CineCommand.keptBy]
    refine ⟨?_, fun h => absurd rfl h⟩
    split_ifs <;> rfl
  | C_SETCAMERA => exact ⟨rfl, fun _ => rfl⟩
  | C_RESETCAMERA => exact ⟨rfl, fun _ => rfl⟩
  | C_WAIT => exact ⟨rfl, fun _ => rfl⟩
  | C_WAITUNTILDONE => exact ⟨rfl, fun _ => rfl⟩
  | C_OTHER tag => exact ⟨rfl, fun _ => rfl⟩

theorem cineLoop_length {α : Type} (E : Env α) (cs : List (CineCommand α)) :
    ∀ v : Scan α, (cineLoop E cs v).1.length = cs.length := by
  induction cs with
  | nil => intro v; rfl
  | cons c cs ih => intro v; simp [cineLoop, ih]

theorem cineLoop_keptBy {α : Type} (E : Env α) (cs : List (CineCommand α)) :
    ∀ (v : Scan α) (i : Nat) (c : CineCommand α), cs[i]? = some c →
      ∃ c1, (cineLoop E cs v).1[i]? = some c1 ∧ CineCommand.keptBy c c1 := by
  induction cs with
  | nil => intro v i c h; simp at h
  | cons d ds ih =>
    intro v i c h
    cases i with
    | zero =>
      simp only [List.getElem?_cons_zero, Option.some.injEq] at h
      subst h
      exact ⟨(cineBody E d v).1, by simp [cineLoop], cineBody_keptBy E d v⟩
    | succ j =>
      simp only [List.getElem?_cons_succ] at h
      obtain ⟨c1, h1, h2⟩ := ih (cineBody E d v).2 j c h
      exact ⟨c1, by simpa [cineLoop] using h1, h2⟩

theorem cineLoop_setCamera {α : Type} (E : Env α) (cs : List (CineCommand α))
    (hne : cs ≠ []) (hall : ∀ c ∈ cs, c.cmdType = .C_SETCAMERA) :
    ∀ v : Scan α, cineLoop E cs v =
      (cs, { cameraX := (cs.getLast hne).x, cameraY := (cs.getLast hne).y
             cameraLock := true, complete := true }) := by
  induction cs with
  | nil => exact absurd rfl hne
  | cons c cs ih =>
    intro v
    have hc : c.cmdType = .C_SETCAMERA := hall c (List.mem_cons_self c cs)
    have hbody : ∀ u : Scan α, cineBody E c u =
        (c, { cameraX := c.x, cameraY := c.y, cameraLock := true, complete := true }) := by
      intro u
      simp [cineBody, hc]
    cases cs with
    | nil => simp [cineLoop, hbody]
    | cons d ds =>
      have hall2 : ∀ e ∈ d :: ds, e.cmdType = .C_SETCAMERA :=
        fun e he => hall e (List.mem_cons_of_mem c he)
      have hrest := ih (List.cons_ne_nil d ds) hall2
      have hstep : cineLoop E (c :: d :: ds) v =
          ((cineBody E c v).1 :: (cineLoop E (d :: ds) (cineBody E c v).2).1,
            (cineLoop E (d :: ds) (cineBody E c v).2).2) := rfl
      rw [hstep, hbody, hrest]
      simp [List.getLast_cons]

theorem keptBy_fields {α : Type} {c c1 : CineCommand α} (h : CineCommand.keptBy c c1) :
    c1.cmdType = c.cmdType ∧ c1.x = c.x ∧ c1.y = c.y ∧ c1.delay = c.delay ∧
      c1.speed = c.speed := by
  have h1 := h.1
  refine ⟨?_, ?_, ?_, ?_, ?_⟩ <;> (rw [h1])

/-- C6: with the cinematic active and a non-empty queue of `C_SETCAMERA`
commands, one call of `processCines` runs through the whole queue: afterwards
the camera is at the `(x, y)` of the last command, the camera is locked, and
the queue is as it was. -/
theorem processCines_setCamera_queue {α : Type} (E : Env α) (s : AI α)
    (hact : s._cineActive = true) (hne : s._cine ≠ [])
    (hall : ∀ c ∈ s._cine, c.cmdType = .C_SETCAMERA) :
    (AI.processCines E s)._cameraX = (s._cine.getLast hne).x ∧
      (AI.processCines E s)._cameraY = (s._cine.getLast hne).y ∧
      (AI.processCines E s)._cameraLock = true ∧
      (AI.processCines E s)._cine = s._cine := by
  simp only [AI.processCines, hact, cineLoop_setCamera E s._cine hne hall]
  simp

theorem processCines_setCamera_queue_witness :
    (AI.processCines intEnv twoShots)._cameraX = 96 ∧
      (AI.processCines intEnv twoShots)._cameraY = 128 ∧
      (AI.processCines intEnv twoShots)._cameraLock = true ∧
      (AI.processCines intEnv twoShots)._cine = twoShots._cine := by
  have hact : twoShots._cineActive = true := by decide
  have hne : twoShots._cine ≠ [] := by decide
  have hall : ∀ c ∈ twoShots._cine, c.cmdType = .C_SETCAMERA := by decide
  exact processCines_setCamera_queue intEnv twoShots hact hne hall

/-- C7: each cine enqueue operation appends exactly one command at the end of
the queue, of the type that goes with the operation, and leaves the commands
queued before as they were; `cineSetCamera(x, y)` and `cineMoveCamera(x, y, _)`
store `x * kTileWidth` and `y * kTileHeight`, and `cineWait(seconds)` stores
`seconds` as the delay. -/
theorem cine_enqueue_appends {α : Type} (E : Env α) (s : AI α) (x y speed seconds : Int) :
    (∃ c, (AI.cineSetCamera E s x y)._cine = s._cine ++ [c] ∧ c.cmdType = .C_SETCAMERA ∧
        c.x = E.ofInt (x * E.kTileWidth) ∧ c.y = E.ofInt (y * E.kTileHeight)) ∧
      (∃ c, (AI.cineResetCamera E s)._cine = s._cine ++ [c] ∧ c.cmdType = .C_RESETCAMERA) ∧
      (∃ c, (AI.cineMoveCamera E s x y speed)._cine = s._cine ++ [c] ∧
        c.cmdType = .C_MOVECAMERA ∧
        c.x = E.ofInt (x * E.kTileWidth) ∧ c.y = E.ofInt (y * E.kTileHeight)) ∧
      (∃ c, (AI.cineWait E s seconds)._cine = s._cine ++ [c] ∧ c.cmdType = .C_WAIT ∧
        c.delay = seconds) ∧
      (∃ c, (AI.cineWaitUntilDone E s)._cine = s._cine ++ [c] ∧
        c.cmdType = .C_WAITUNTILDONE) :=
  ⟨⟨_, rfl, rfl, rfl, rfl⟩, ⟨_, rfl, rfl⟩, ⟨_, rfl, rfl, rfl, rfl⟩, ⟨_, rfl, rfl, rfl⟩,
    ⟨_, rfl, rfl⟩⟩

/-- C9: `processCines` keeps the queue length, and the command at each position
keeps its cmdType, x and y: nothing but xv, yv and start changes, and those only
in a `C_MOVECAMERA` command; with the cinematic inactive the whole state is
unchanged. -/
theorem processCines_keeps_queue {α : Type} (E : Env α) (s : AI α) :
    (AI.processCines E s)._cine.length = s._cine.length ∧
      (∀ (i : Nat) (c : CineCommand α), s._cine[i]? = some c →
        ∃ c1, (AI.processCines E s)._cine[i]? = some c1 ∧
          c1.cmdType = c.cmdType ∧ c1.x = c.x ∧ c1.y = c.y ∧ CineCommand.keptBy c c1) ∧
      (s._cineActive = false → AI.processCines E s = s) := by
  refine ⟨?_, ?_, ?_⟩
  · cases hact : s._cineActive with
    | false => simp [AI.processCines, hact]
    | true => simp [AI.processCines, hact, cineLoop_length]
  · intro i c hc
    cases hact : s._cineActive with
    | false =>
      refine ⟨c, by simpa [AI.processCines, hact] using hc, rfl, rfl, rfl, rfl, fun _ => rfl⟩
    | true =>
      obtain ⟨c1, h1, h2⟩ := cineLoop_keptBy E s._cine
        { cameraX := s._cameraX, cameraY := s._cameraY
          cameraLock := s._cameraLock, complete := false } i c hc
      have hf := keptBy_fields h2
      exact ⟨c1, by simpa [AI.processCines, hact] using h1, hf.1, hf.2.1, hf.2.2.1, h2⟩
  · intro hact
    simp [AI.processCines, hact]

/-- C10: the speed argument of `cineMoveCamera` has no effect: two calls that
differ only in the speed give the same state, and the speed field of the
appended command is the one of a freshly allocated command. -/
theorem cineMoveCamera_speed_unused {α : Type} (E : Env α) (s : AI α) (x y s1 s2 : Int) :
    AI.cineMoveCamera E s x y s1 = AI.cineMoveCamera E s x y s2 ∧
      ∃ c, (AI.cineMoveCamera E s x y s1)._cine = s._cine ++ [c] ∧
        c.speed = E.fresh.speed :=
  ⟨rfl, _, rfl, rfl⟩

end HDB
